import Mathlib

/-!
Verification development for the AmazonQ protocol-translation gateway.

This file embeds the core of the repository in Lean 4 and proves (or
refutes) the frozen claims about it:

* `src/amazonq/streaming.py` — the `ClaudeStreamHandler` state machine that
  translates upstream events into Claude-style SSE events;
* `src/amazonq/parser.py` — the binary event-stream frame decoder
  (`EventStreamParser.parse_stream` / `parse_message` / `parse_headers`);
* `src/api/server.py` — the non-streaming SSE aggregation loop of
  `claude_messages`;
* `src/api/middleware.py` — bearer-secret parsing and the credential cache
  (`_parse_bearer_token`, `auth_middleware`);
* `src/core/converter.py` — model mapping, current-turn body formatting and
  user-history merging (`map_model_name`, `convert_claude_to_amazonq_request`,
  `merge_user_messages`).

Python strings are embedded as Lean `String`s; where the code performs
character-level operations (`str.lower`, `str.startswith`, `str.split`,
slicing) we operate on the underlying `List Char`.  `json.dumps` /
`json.loads` and UTF-8 decoding are abstracted as parameters, since no
settled claim depends on the concrete JSON grammar.  Generators are embedded
as pure functions returning the ordered list of yielded items next to the
updated state.
-/

namespace AmazonQ

/-! ### Python string primitives

Character-level models of the Python string operations used by the code. -/

/-- Python `s.lower()` (character-wise lowercasing). -/
def pyLower (s : String) : String := ⟨s.data.map Char.toLower⟩

/-- Python `s.startswith(pre)`. -/
def pyStartsWith (s pre : String) : Bool := pre.data.isPrefixOf s.data

/-- Python `s.split(c)` for a single-character separator: splits at every
occurrence, keeping empty fields (`"".split(":") == [""]`). -/
def pySplitChar (c : Char) : List Char → List (List Char)
  | [] => [[]]
  | x :: xs =>
    if x = c then [] :: pySplitChar c xs
    else
      match pySplitChar c xs with
      | [] => [[x]]
      | h :: t => (x :: h) :: t

/-- Python `sep.join(parts)` at the character level. -/
def pyJoin (sep : List Char) : List (List Char) → List Char
  | [] => []
  | [x] => x
  | x :: y :: t => x ++ sep ++ pyJoin sep (y :: t)

/-- Python `s.strip()`: removes leading and trailing ASCII whitespace. -/
def pyStrip (s : String) : String :=
  ⟨((s.data.dropWhile Char.isWhitespace).reverse.dropWhile Char.isWhitespace).reverse⟩

/-- Python slice `s[n:]` (by characters). -/
def pyDrop (s : String) (n : Nat) : String := ⟨s.data.drop n⟩

/-- Python slice `s[:n]` (by characters). -/
def pyTake (s : String) (n : Nat) : String := ⟨s.data.take n⟩

/-! ### `src/amazonq/streaming.py` — the `ClaudeStreamHandler` state machine

The handler consumes `(event_type, payload)` pairs and yields Claude SSE
event strings built by the `build_*` helpers of `src/amazonq/parser.py`.
We model the yielded strings structurally by the constructor of `SSE`
(one constructor per `build_*` helper; `build_message_stop` returns the
`message_delta` and `message_stop` events concatenated in a single string,
hence the single combined constructor). -/

/-- One outbound SSE string, as produced by the `build_*` helpers of
`src/amazonq/parser.py`. -/
inductive SSE where
  | messageStart (conversationId model : String) (inputTokens : Nat)
  | ping
  | contentBlockStartText (index : Int)
  | contentBlockStartToolUse (index : Int) (toolUseId toolName : String)
  | contentBlockDeltaText (index : Int) (text : String)
  | contentBlockDeltaInputJson (index : Int) (partJson : String)
  | contentBlockStop (index : Int)
  | messageDeltaAndStop (outputTokens : Nat) (stopReason : String)
deriving DecidableEq, Repr

/-- Is this string a `content_block_start` event (text or tool-use)? -/
def SSE.isBlockStart : SSE → Bool
  | .contentBlockStartText _ => true
  | .contentBlockStartToolUse _ _ _ => true
  | _ => false

/-- Is this string a `content_block_stop` event? -/
def SSE.isBlockStop : SSE → Bool
  | .contentBlockStop _ => true
  | _ => false

/-- The `"input"` value of a `toolUseEvent` payload: either already a string
or some other JSON value, which the handler stringifies with `json.dumps`.
For a non-string value we record its dump and its Python truthiness. -/
inductive QInput where
  | str (s : String)
  | jsonVal (dump : String) (truthy : Bool)
deriving DecidableEq, Repr

/-- Python truthiness of the `"input"` value (`payload.get("input", {})` is
falsy when the key is absent). -/
def QInput.isTruthy : Option QInput → Bool
  | some (.str s) => s ≠ ""
  | some (.jsonVal _ t) => t
  | none => false

/-- The fragment appended to the tool-input buffer: the string itself, or
`json.dumps(value)` for a non-string value. -/
def QInput.fragment : Option QInput → String
  | some (.str s) => s
  | some (.jsonVal d _) => d
  | none => ""

/-- Python truthiness of an optional string (`None` and `""` are falsy). -/
def truthyOptStr : Option String → Bool
  | some s => s ≠ ""
  | none => false

/-- One upstream event as seen by `ClaudeStreamHandler.handle_event`:
the event-type string together with the payload fields the handler reads
(`conversationId`, `content`, `toolUseId`, `name`, `input`, `stop`).
`none` models an absent key. -/
structure QEvent where
  eventType : String
  conversationId : Option String := none
  content : String := ""
  toolUseId : Option String := none
  name : Option String := none
  input : Option QInput := none
  stop : Bool := false
deriving DecidableEq, Repr

/-- The mutable state of `ClaudeStreamHandler` (its `__init__` fields).
The Python set `_processed_tool_use_ids` is modeled as a duplicate-free
list in insertion order. -/
structure HandlerState where
  model : String
  inputTokens : Nat
  responseBuffer : List String
  contentBlockIndex : Int
  contentBlockStarted : Bool
  contentBlockStartSent : Bool
  contentBlockStopSent : Bool
  messageStartSent : Bool
  conversationId : Option String
  currentToolUse : Option (String × String)
  toolInputBuffer : List String
  toolUseId : Option String
  toolName : Option String
  processedToolUseIds : List String
  allToolInputs : List String
deriving DecidableEq, Repr

/-- `ClaudeStreamHandler.__init__(model, input_tokens)`. -/
def initHandler (model : String) (inputTokens : Nat) : HandlerState where
  model := model
  inputTokens := inputTokens
  responseBuffer := []
  contentBlockIndex := -1
  contentBlockStarted := false
  contentBlockStartSent := false
  contentBlockStopSent := false
  messageStartSent := false
  conversationId := none
  currentToolUse := none
  toolInputBuffer := []
  toolUseId := none
  toolName := none
  processedToolUseIds := []
  allToolInputs := []

/-- `set.add` on the insertion-ordered duplicate-free list. -/
def setAdd (l : List String) (x : String) : List String :=
  if x ∈ l then l else l ++ [x]

/-- The `initial-response` branch of `handle_event` (lines 61-67). -/
def handleInitialResponse (s : HandlerState) (e : QEvent) : HandlerState × List SSE :=
  if !s.messageStartSent then
    let dflt : String :=
      match s.conversationId with
      | some c => if c ≠ "" then c else "unknown"
      | none => "unknown"
    let convId := e.conversationId.getD dflt
    ({ s with conversationId := some convId, messageStartSent := true },
     [SSE.messageStart convId s.model s.inputTokens, SSE.ping])
  else (s, [])

/-- The `assistantResponseEvent` branch of `handle_event` (lines 70-89):
close an open tool-use block, start a text block if no `content_block_start`
was sent yet, then emit the text delta when the content is non-empty. -/
def handleAssistantResponse (s : HandlerState) (e : QEvent) : HandlerState × List SSE :=
  let content := e.content
  let p1 : HandlerState × List SSE :=
    if s.currentToolUse.isSome && !s.contentBlockStopSent then
      ({ s with contentBlockStopSent := true, currentToolUse := none },
       [SSE.contentBlockStop s.contentBlockIndex])
    else (s, [])
  let s1 := p1.1
  let p2 : HandlerState × List SSE :=
    if !s1.contentBlockStartSent then
      ({ s1 with contentBlockIndex := s1.contentBlockIndex + 1,
                 contentBlockStartSent := true, contentBlockStarted := true },
       [SSE.contentBlockStartText (s1.contentBlockIndex + 1)])
    else (s1, [])
  let s2 := p2.1
  let p3 : HandlerState × List SSE :=
    if content ≠ "" then
      ({ s2 with responseBuffer := s2.responseBuffer ++ [content] },
       [SSE.contentBlockDeltaText s2.contentBlockIndex content])
    else (s2, [])
  (p3.1, p1.2 ++ p2.2 ++ p3.2)

/-- The `toolUseEvent` branch of `handle_event` (lines 92-140): start a new
tool-use block (closing an open text block first), accumulate input
fragments, and close the block on `stop`. -/
def handleToolUse (s : HandlerState) (e : QEvent) : HandlerState × List SSE :=
  let p1 : HandlerState × List SSE :=
    if truthyOptStr e.toolUseId && truthyOptStr e.name && s.currentToolUse.isNone then
      let tid := e.toolUseId.getD ""
      let tname := e.name.getD ""
      let q : HandlerState × List SSE :=
        if s.contentBlockStartSent && !s.contentBlockStopSent then
          ({ s with contentBlockStopSent := true },
           [SSE.contentBlockStop s.contentBlockIndex])
        else (s, [])
      let sq := q.1
      ({ sq with processedToolUseIds := setAdd sq.processedToolUseIds tid,
                 contentBlockIndex := sq.contentBlockIndex + 1,
                 contentBlockStarted := true,
                 currentToolUse := some (tid, tname),
                 toolUseId := some tid,
                 toolName := some tname,
                 toolInputBuffer := [],
                 contentBlockStopSent := false,
                 contentBlockStartSent := true },
       q.2 ++ [SSE.contentBlockStartToolUse (sq.contentBlockIndex + 1) tid tname])
    else (s, [])
  let s1 := p1.1
  let p2 : HandlerState × List SSE :=
    if s1.currentToolUse.isSome && QInput.isTruthy e.input then
      let fragment := QInput.fragment e.input
      ({ s1 with toolInputBuffer := s1.toolInputBuffer ++ [fragment] },
       [SSE.contentBlockDeltaInputJson s1.contentBlockIndex fragment])
    else (s1, [])
  let s2 := p2.1
  let p3 : HandlerState × List SSE :=
    if e.stop && s2.currentToolUse.isSome then
      let fullInput := String.join s2.toolInputBuffer
      ({ s2 with allToolInputs := s2.allToolInputs ++ [fullInput],
                 contentBlockStopSent := true,
                 contentBlockStarted := false,
                 currentToolUse := none,
                 toolUseId := none,
                 toolName := none,
                 toolInputBuffer := [] },
       [SSE.contentBlockStop s2.contentBlockIndex])
    else (s2, [])
  (p3.1, p1.2 ++ p2.2 ++ p3.2)

/-- The `assistantResponseEnd` branch of `handle_event` (lines 143-147). -/
def handleResponseEnd (s : HandlerState) : HandlerState × List SSE :=
  if s.contentBlockStarted && !s.contentBlockStopSent then
    ({ s with contentBlockStopSent := true },
     [SSE.contentBlockStop s.contentBlockIndex])
  else (s, [])

/-- `ClaudeStreamHandler.handle_event(event_type, payload)`: dispatch on the
event-type string; any other event type falls through the `if`/`elif` chain
and yields nothing. -/
def handleEvent (s : HandlerState) (e : QEvent) : HandlerState × List SSE :=
  if e.eventType = "initial-response" then handleInitialResponse s e
  else if e.eventType = "assistantResponseEvent" then handleAssistantResponse s e
  else if e.eventType = "toolUseEvent" then handleToolUse s e
  else if e.eventType = "assistantResponseEnd" then handleResponseEnd s
  else (s, [])

/-- `ClaudeStreamHandler.finish()`: close a dangling block, then emit the
combined `message_delta` + `message_stop` string with the approximate
output-token count `max 1 ((len(text) + len(tool inputs)) // 4)`. -/
def finishHandler (s : HandlerState) : HandlerState × List SSE :=
  let p1 : HandlerState × List SSE :=
    if s.contentBlockStarted && !s.contentBlockStopSent then
      ({ s with contentBlockStopSent := true },
       [SSE.contentBlockStop s.contentBlockIndex])
    else (s, [])
  let s1 := p1.1
  let fullText := String.join s1.responseBuffer
  let fullToolInput := String.join s1.allToolInputs
  let outputTokens := max 1 ((fullText.length + fullToolInput.length) / 4)
  (s1, p1.2 ++ [SSE.messageDeltaAndStop outputTokens "end_turn"])

/-- Run `handle_event` over a list of events, collecting all yields in
order. -/
def handleEvents (s : HandlerState) : List QEvent → HandlerState × List SSE
  | [] => (s, [])
  | e :: es =>
    let p := handleEvent s e
    let q := handleEvents p.1 es
    (q.1, p.2 ++ q.2)

/-- The complete per-request SSE stream: all `handle_event` yields in event
order, followed by the `finish()` yields — exactly the order produced by
`event_generator` in `src/api/server.py` (lines 148-158). -/
def runStream (model : String) (inputTokens : Nat) (events : List QEvent) : List SSE :=
  let p := handleEvents (initHandler model inputTokens) events
  p.2 ++ (finishHandler p.1).2

end AmazonQ

namespace AmazonQ

/-! ### Claims about the stream translator -/

/-- The `toolUseEvent` that opens the block `t1`/`bash`. -/
def evToolStart : QEvent := { eventType := "toolUseEvent", toolUseId := some "t1", name := some "bash" }

/-- A bare `assistantResponseEnd` event. -/
def evResponseEnd : QEvent := { eventType := "assistantResponseEnd" }

/-- A `toolUseEvent` carrying only `stop: true`. -/
def evToolStop : QEvent := { eventType := "toolUseEvent", stop := true }

/-- An `assistantResponseEvent` with content `"hi"`. -/
def evText (t : String) : QEvent := { eventType := "assistantResponseEvent", content := t }

end AmazonQ

/-- C1: the claimed invariant — equally many `content_block_stop` and
`content_block_start` events — fails on the input sequence
`[toolUseEvent{id,name}, assistantResponseEnd, toolUseEvent{stop}]`:
`assistantResponseEnd` closes the open tool-use block but does not clear
`current_tool_use`, and the `stop` branch (streaming.py line 130) checks only
`current_tool_use`, so a second `content_block_stop` is emitted for one
`content_block_start` (1 start, 2 stops). -/
theorem claim_c1_stop_count_exceeds_start_count :
    (AmazonQ.runStream "m" 0 [AmazonQ.evToolStart, AmazonQ.evResponseEnd, AmazonQ.evToolStop]).countP
        (fun e => e.isBlockStart) = 1 ∧
    (AmazonQ.runStream "m" 0 [AmazonQ.evToolStart, AmazonQ.evResponseEnd, AmazonQ.evToolStop]).countP
        (fun e => e.isBlockStop) = 2 := by
  decide

/-- C4 (counterexample): after a tool-use block is opened and closed, no
content block is open, yet on the next `assistantResponseEvent` the handler
emits the text delta alone — no `content_block_start` precedes it, because
the guard is the once-only flag `content_block_start_sent`, not "no text
block is open". -/
theorem claim_c4_counterexample :
    (AmazonQ.handleEvents (AmazonQ.initHandler "m" 0) [AmazonQ.evToolStart, AmazonQ.evToolStop]).1.contentBlockStarted = false ∧
    (AmazonQ.handleEvents (AmazonQ.initHandler "m" 0) [AmazonQ.evToolStart, AmazonQ.evToolStop]).1.currentToolUse = none ∧
    (AmazonQ.handleEvent ((AmazonQ.handleEvents (AmazonQ.initHandler "m" 0) [AmazonQ.evToolStart, AmazonQ.evToolStop]).1) (AmazonQ.evText "hi")).2
      = [AmazonQ.SSE.contentBlockDeltaText 0 "hi"] := by
  decide

/-- C4 (amended): on every `assistantResponseEvent`, the emitted sequence is
exactly: a `content_block_stop` if a tool-use block is open and no stop has
been sent for the current block; then a new text `content_block_start` with
the next index only if no `content_block_start` has been emitted yet in the
whole stream; then the text delta (at the current index) when the content is
non-empty. -/
theorem claim_c4_assistant_response_transition (s : AmazonQ.HandlerState) (e : AmazonQ.QEvent)
    (h : e.eventType = "assistantResponseEvent") :
    (AmazonQ.handleEvent s e).2 =
      (if s.currentToolUse.isSome && !s.contentBlockStopSent
       then [AmazonQ.SSE.contentBlockStop s.contentBlockIndex] else [])
      ++ (if !s.contentBlockStartSent
          then [AmazonQ.SSE.contentBlockStartText (s.contentBlockIndex + 1)] else [])
      ++ (if e.content ≠ ""
          then [AmazonQ.SSE.contentBlockDeltaText
                 (if !s.contentBlockStartSent then s.contentBlockIndex + 1 else s.contentBlockIndex)
                 e.content] else []) := by
  obtain ⟨mo, it, rb, idx, st, ss, sp, ms, cid, ctu, tib, tid, tn, pids, ati⟩ := s
  simp only [AmazonQ.handleEvent, h]
  cases ctu <;> cases ss <;> cases sp <;> by_cases h3 : e.content = "" <;>
    simp [AmazonQ.handleAssistantResponse, h3]

/-- C4 witness: the amended transition evaluated at the initial state and a
concrete `assistantResponseEvent`. -/
theorem claim_c4_witness :
    (AmazonQ.handleEvent (AmazonQ.initHandler "m" 0) (AmazonQ.evText "hi")).2
      = [AmazonQ.SSE.contentBlockStartText 0, AmazonQ.SSE.contentBlockDeltaText 0 "hi"] :=
  Eq.trans (claim_c4_assistant_response_transition (AmazonQ.initHandler "m" 0) (AmazonQ.evText "hi") rfl)
    (by decide)

/-- C10: an event whose type is none of `initial-response`,
`assistantResponseEvent`, `toolUseEvent`, `assistantResponseEnd` falls
through the `if`/`elif` chain: `handle_event` yields nothing and leaves
every field of the handler state unchanged. -/
theorem claim_c10_unknown_event_is_noop (s : AmazonQ.HandlerState) (e : AmazonQ.QEvent)
    (h1 : e.eventType ≠ "initial-response")
    (h2 : e.eventType ≠ "assistantResponseEvent")
    (h3 : e.eventType ≠ "toolUseEvent")
    (h4 : e.eventType ≠ "assistantResponseEnd") :
    AmazonQ.handleEvent s e = (s, []) := by
  simp [AmazonQ.handleEvent, h1, h2, h3, h4]

/-- C10 witness: a concrete unknown event type leaves a concrete state
untouched and emits nothing. -/
theorem claim_c10_witness :
    AmazonQ.handleEvent (AmazonQ.initHandler "m" 0) { eventType := "errorEvent" } = (AmazonQ.initHandler "m" 0, []) :=
  claim_c10_unknown_event_is_noop (AmazonQ.initHandler "m" 0) { eventType := "errorEvent" }
    (by decide) (by decide) (by decide) (by decide)

namespace AmazonQ

/-! ### `src/amazonq/parser.py` — the binary event-stream decoder

Bytes are embedded as `Nat` values (`< 256` for real byte streams).  UTF-8
decoding (`bytes.decode('utf-8')`, which may raise) is abstracted as a
parameter `utf8 : List Nat → Option String`, and the opportunistic
`json.loads` of the payload as `jsonP : List Nat → Option J`; the chunking
claims below hold for every choice of these parameters. -/

/-- `struct.unpack('>I', data[0:4])[0]`: big-endian u32 of the first four
bytes. -/
def readU32 (l : List Nat) : Nat :=
  l.getD 0 0 * 16777216 + l.getD 1 0 * 65536 + l.getD 2 0 * 256 + l.getD 3 0

/-- `struct.unpack('>H', data[0:2])[0]`: big-endian u16 of the first two
bytes. -/
def readU16 (l : List Nat) : Nat := l.getD 0 0 * 256 + l.getD 1 0

/-- A header value: UTF-8 string (value type 7) or raw bytes (any other
value type). -/
inductive HVal where
  | str (s : String)
  | bytes (b : List Nat)
deriving DecidableEq, Repr

/-- Python dict assignment `headers[name] = value`: overwrite in place if the
key exists, else append (insertion order preserved). -/
def dictInsert (l : List (String × HVal)) (k : String) (v : HVal) : List (String × HVal) :=
  if l.any (fun q => q.1 = k) then l.map (fun q => if q.1 = k then (k, v) else q)
  else l ++ [(k, v)]

/-- `EventStreamParser.parse_headers` (lines 13-58): walk the header bytes;
each entry is `u8 nameLen | name | u8 valueType | u16 valueLen | value`; any
bound overrun `break`s and returns what was collected.  A UTF-8 decode
failure raises (`none` here) and is caught by `parse_message`. -/
def parseHeadersGo (utf8 : List Nat → Option String) (data : List Nat)
    (acc : List (String × HVal)) : Option (List (String × HVal)) :=
  if hd : data.length = 0 then some acc
  else
    let nameLength := data.getD 0 0
    let r1 := data.drop 1
    if r1.length < nameLength then some acc
    else
      match utf8 (r1.take nameLength) with
      | none => none
      | some name =>
        let r2 := r1.drop nameLength
        if r2.length = 0 then some acc
        else
          let r3 := r2.drop 1
          if r3.length < 2 then some acc
          else
            let valueLength := readU16 r3
            let r4 := r3.drop 2
            if r4.length < valueLength then some acc
            else
              match (if r2.getD 0 0 = 7
                     then (utf8 (r4.take valueLength)).map HVal.str
                     else some (HVal.bytes (r4.take valueLength))) with
              | none => none
              | some v => parseHeadersGo utf8 (r4.drop valueLength) (dictInsert acc name v)
termination_by data.length
decreasing_by
  simp only [List.length_drop]
  omega

/-- The payload of a decoded message: `None` for empty payload bytes,
the parsed JSON value when `json.loads` succeeds, the raw bytes otherwise. -/
inductive QPayload (J : Type) where
  | null
  | json (j : J)
  | raw (b : List Nat)
deriving DecidableEq, Repr

/-- The dict returned by `parse_message`. -/
structure QMessage (J : Type) where
  headers : List (String × HVal)
  payload : QPayload J
  totalLength : Nat
deriving DecidableEq, Repr

/-- `EventStreamParser.parse_message` (lines 61-104).  The `totalLength - 4`
is `Nat` subtraction; it agrees with Python whenever `totalLength ≥ 4`, and
`parse_stream` only calls `parse_message` on a buffer whose length equals
`totalLength`, in which case `totalLength < 16` has already returned `None`. -/
def parseMessage {J : Type} (jsonP : List Nat → Option J) (utf8 : List Nat → Option String)
    (data : List Nat) : Option (QMessage J) :=
  if data.length < 16 then none
  else
    let totalLength := readU32 data
    let headersLength := readU32 (data.drop 4)
    if data.length < totalLength then none
    else
      match parseHeadersGo utf8 ((data.drop 12).take headersLength) [] with
      | none => none
      | some headers =>
        let payloadData := (data.take (totalLength - 4)).drop (12 + headersLength)
        let payload : QPayload J :=
          if payloadData.isEmpty then QPayload.null
          else
            match jsonP payloadData with
            | some j => QPayload.json j
            | none => QPayload.raw payloadData
        some ⟨headers, payload, totalLength⟩

/-- The inner `while len(buffer) >= 12` loop of `parse_stream` (lines
122-136): extract complete frames from the front of the buffer, stopping as
soon as fewer than 12 bytes remain or the declared total length reads past
the buffer end.  The loop is modeled with fuel: every iteration on a
well-formed frame consumes at least 16 bytes, so fuel `buffer.length`
suffices for every input on which the Python loop terminates (on a frame
declaring total length 0 the Python loop spins forever; here the fuel runs
out instead). -/
def drainBuffer : Nat → List Nat → List (List Nat) × List Nat
  | 0, buf => ([], buf)
  | fuel + 1, buf =>
    if buf.length < 12 then ([], buf)
    else
      let totalLength := readU32 buf
      if buf.length < totalLength then ([], buf)
      else
        let p := drainBuffer fuel (buf.drop totalLength)
        (buf.take totalLength :: p.1, p.2)

/-- The chunk loop of `parse_stream` (lines 117-136): append each incoming
chunk to the carried buffer and drain complete frames, returning the
extracted frames in order together with the final leftover buffer. -/
def feedChunks (buf : List Nat) : List (List Nat) → List (List Nat) × List Nat
  | [] => ([], buf)
  | c :: cs =>
    let p := drainBuffer (buf ++ c).length (buf ++ c)
    let q := feedChunks p.2 cs
    (p.1 ++ q.1, q.2)

/-- `EventStreamParser.parse_stream`: the sequence of decoded messages for a
chunked byte stream (a frame is yielded only when `parse_message` returns a
message). -/
def parseStream {J : Type} (jsonP : List Nat → Option J) (utf8 : List Nat → Option String)
    (chunks : List (List Nat)) : List (QMessage J) :=
  (feedChunks [] chunks).1.filterMap (parseMessage jsonP utf8)

/-- A complete frame of the wire format: at least the 16 bytes of fixed
layout, a declared total length equal to the actual byte count, and byte
values in range. -/
def WFFrame (f : List Nat) : Prop :=
  16 ≤ f.length ∧ readU32 f = f.length ∧ ∀ b ∈ f, b < 256

instance : DecidablePred WFFrame := fun f => by unfold WFFrame; infer_instance

/-- The buffer state at which the drain loop has stopped: fewer than 12
bytes, or the declared length reads past the end. -/
def Stopped (p : List Nat) : Prop := p.length < 12 ∨ p.length < readU32 p

theorem readU32_append (f rest : List Nat) (h : 4 ≤ f.length) :
    readU32 (f ++ rest) = readU32 f := by
  unfold readU32
  rw [List.getD_append _ _ _ _ (by omega), List.getD_append _ _ _ _ (by omega),
    List.getD_append _ _ _ _ (by omega), List.getD_append _ _ _ _ (by omega)]

theorem drainBuffer_stopped (fuel : Nat) (p : List Nat) (h : Stopped p) :
    drainBuffer fuel p = ([], p) := by
  cases fuel with
  | zero => rfl
  | succ fuel =>
    rw [drainBuffer]
    rcases h with h | h
    · simp [h]
    · by_cases h12 : p.length < 12
      · simp [h12]
      · simp [h12, h]

theorem drainBuffer_cons (fuel : Nat) (f rest : List Nat) (h16 : 16 ≤ f.length)
    (hlen : readU32 f = f.length) :
    drainBuffer (fuel + 1) (f ++ rest) =
      ((f :: (drainBuffer fuel rest).1), (drainBuffer fuel rest).2) := by
  have hr : readU32 (f ++ rest) = f.length := by
    rw [readU32_append _ _ (by omega), hlen]
  have h12 : ¬ (f ++ rest).length < 12 := by
    rw [List.length_append]; omega
  have hfit : ¬ (f ++ rest).length < readU32 (f ++ rest) := by
    rw [hr, List.length_append]; omega
  rw [drainBuffer]
  simp only [h12, if_false, hr]
  rw [if_neg (show ¬ (f ++ rest).length < f.length by rw [List.length_append]; omega)]
  rw [List.take_left, List.drop_left]

theorem drainBuffer_frames (fs : List (List Nat)) (p : List Nat) :
    ∀ fuel : Nat, fs.length ≤ fuel →
    (∀ f ∈ fs, 16 ≤ f.length ∧ readU32 f = f.length) → Stopped p →
    drainBuffer fuel (fs.flatten ++ p) = (fs, p) := by
  induction fs with
  | nil =>
    intro fuel _ _ hp
    simpa using drainBuffer_stopped fuel p hp
  | cons f fs ih =>
    intro fuel hfuel hwf hp
    obtain ⟨fuel, rfl⟩ : ∃ fuel', fuel = fuel' + 1 := by
      cases fuel with
      | zero => simp at hfuel
      | succ n => exact ⟨n, rfl⟩
    rw [List.flatten_cons, List.append_assoc,
      drainBuffer_cons fuel f (fs.flatten ++ p) (hwf f (by simp)).1 (hwf f (by simp)).2,
      ih fuel (by simpa using Nat.le_of_succ_le_succ hfuel)
        (fun g hg => hwf g (by simp [hg])) hp]

end AmazonQ

namespace AmazonQ

/-- The leftover buffer is either empty or a proper prefix of the next
frame still to come. -/
def PendingFor (p : List Nat) (fs : List (List Nat)) : Prop :=
  p = [] ∨ ∃ g gs, fs = g :: gs ∧ p <+: g ∧ p.length < g.length

theorem stopped_of_pendingFor (p : List Nat) (fs : List (List Nat))
    (hwf : ∀ f ∈ fs, WFFrame f) (h : PendingFor p fs) : Stopped p := by
  rcases h with rfl | ⟨g, gs, rfl, hpre, hlt⟩
  · exact Or.inl (by simp)
  · by_cases h12 : p.length < 12
    · exact Or.inl h12
    · refine Or.inr ?_
      obtain ⟨t, rfl⟩ := hpre
      rw [show readU32 p = readU32 (p ++ t) from (readU32_append p t (by omega)).symm,
        (hwf (p ++ t) (by simp)).2.1]
      simpa using hlt

/-- Any prefix of a concatenation of frames splits at a frame boundary,
leaving at most a proper prefix of the next frame. -/
theorem split_at_frames (fs : List (List Nat)) :
    ∀ q : List Nat, q <+: fs.flatten →
    ∃ fs₁ fs₂ p, fs = fs₁ ++ fs₂ ∧ q = fs₁.flatten ++ p ∧ PendingFor p fs₂ := by
  induction fs with
  | nil =>
    intro q hq
    refine ⟨[], [], [], by simp, ?_, Or.inl rfl⟩
    simpa using List.prefix_nil.mp (by simpa using hq)
  | cons f fs ih =>
    intro q hq
    rw [List.flatten_cons] at hq
    by_cases hlen : q.length < f.length
    · refine ⟨[], f :: fs, q, rfl, by simp, Or.inr ⟨f, fs, rfl, ?_, hlen⟩⟩
      exact List.prefix_of_prefix_length_le hq (List.prefix_append f _) (by omega)
    · have hf : f <+: q :=
        List.prefix_of_prefix_length_le (List.prefix_append f _) hq (by omega)
      obtain ⟨q', rfl⟩ := hf
      have hq' : q' <+: fs.flatten := by
        obtain ⟨t, ht⟩ := hq
        rw [List.append_assoc] at ht
        exact ⟨t, List.append_cancel_left ht⟩
      obtain ⟨fs₁, fs₂, p, hfs, hsplit, hpend⟩ := ih q' hq'
      exact ⟨f :: fs₁, fs₂, p, by simp [hfs], by simp [hsplit, List.append_assoc], hpend⟩

theorem length_le_flatten_length (fs : List (List Nat)) (h : ∀ f ∈ fs, f ≠ []) :
    fs.length ≤ fs.flatten.length := by
  induction fs with
  | nil => simp
  | cons f fs ih =>
    have hf : 1 ≤ f.length := by
      have := h f (by simp)
      cases f with
      | nil => simp at this
      | cons a l => simp
    have := ih (fun g hg => h g (by simp [hg]))
    simp only [List.flatten_cons, List.length_append, List.length_cons]
    omega

/-- The chunk loop, started on a pending buffer `p` with the remaining
input covering exactly the remaining frames, extracts exactly those frames
and ends with an empty buffer. -/
theorem feedChunks_spec (chunks : List (List Nat)) :
    ∀ (fs : List (List Nat)) (p : List Nat),
    (∀ f ∈ fs, WFFrame f) → p ++ chunks.flatten = fs.flatten → PendingFor p fs →
    feedChunks p chunks = (fs, []) := by
  induction chunks with
  | nil =>
    intro fs p hwf hjoin hpend
    simp only [List.flatten_nil, List.append_nil] at hjoin
    subst hjoin
    rcases hpend with hnil | ⟨g, gs, rfl, _, hlt⟩
    · have hfs : fs = [] := by
        cases fs with
        | nil => rfl
        | cons f fs' =>
          have h16 := (hwf f (by simp)).1
          have hf : f = [] := (List.flatten_eq_nil_iff.mp hnil) f (by simp)
          rw [hf] at h16
          simp at h16
      subst hfs
      simp [feedChunks]
    · exfalso
      have : g.length ≤ (g :: gs).flatten.length := by
        simp [List.flatten_cons]
      omega
  | cons c cs ih =>
    intro fs p hwf hjoin hpend
    have hq : (p ++ c) <+: fs.flatten := by
      refine ⟨cs.flatten, ?_⟩
      rw [List.append_assoc]
      simpa using hjoin
    obtain ⟨fs₁, fs₂, p', hfs, hsplit, hpend'⟩ := split_at_frames fs (p ++ c) hq
    subst hfs
    have hwf₁ : ∀ f ∈ fs₁, WFFrame f := fun f hf => hwf f (by simp [hf])
    have hwf₂ : ∀ f ∈ fs₂, WFFrame f := fun f hf => hwf f (by simp [hf])
    have hfuel : fs₁.length ≤ (p ++ c).length := by
      have h1 : fs₁.length ≤ fs₁.flatten.length :=
        length_le_flatten_length fs₁ (fun f hf => by
          have := (hwf₁ f hf).1
          intro hnil
          simp [hnil] at this)
      have h2 : fs₁.flatten.length ≤ (p ++ c).length := by
        rw [hsplit, List.length_append]; omega
      omega
    have hdrain : drainBuffer (p ++ c).length (p ++ c) = (fs₁, p') := by
      rw [hsplit]
      rw [hsplit] at hfuel
      exact drainBuffer_frames fs₁ p' _ hfuel
        (fun f hf => ⟨(hwf₁ f hf).1, (hwf₁ f hf).2.1⟩)
        (stopped_of_pendingFor p' fs₂ hwf₂ hpend')
    rw [List.flatten_append] at hjoin
    have hjoin' : p' ++ cs.flatten = fs₂.flatten := by
      have h0 : fs₁.flatten ++ (p' ++ cs.flatten) = fs₁.flatten ++ fs₂.flatten := by
        rw [← List.append_assoc, ← hsplit, List.append_assoc, ← List.flatten_cons]
        exact hjoin
      exact List.append_cancel_left h0
    have hrec : feedChunks p' cs = (fs₂, []) := ih fs₂ p' hwf₂ hjoin' hpend'
    simp only [feedChunks, hdrain, hrec]

end AmazonQ

/-- C2: for every finite sequence of complete frames and every chunking of
their concatenated bytes, `parse_stream` yields exactly the decoded messages
of the frames in order — the same output as feeding the whole buffer in one
chunk — for every choice of the JSON and UTF-8 oracles. -/
theorem claim_c2_parse_stream_chunk_invariant (J : Type) (jsonP : List Nat → Option J)
    (utf8 : List Nat → Option String) (frames chunks : List (List Nat))
    (hwf : ∀ f ∈ frames, AmazonQ.WFFrame f)
    (hchunks : chunks.flatten = frames.flatten) :
    AmazonQ.parseStream jsonP utf8 chunks
        = frames.filterMap (AmazonQ.parseMessage jsonP utf8) ∧
    AmazonQ.parseStream jsonP utf8 chunks
        = AmazonQ.parseStream jsonP utf8 [frames.flatten] := by
  have h1 : AmazonQ.feedChunks [] chunks = (frames, []) :=
    AmazonQ.feedChunks_spec chunks frames [] hwf (by simpa using hchunks) (Or.inl rfl)
  have h2 : AmazonQ.feedChunks [] [frames.flatten] = (frames, []) :=
    AmazonQ.feedChunks_spec [frames.flatten] frames [] hwf (by simp) (Or.inl rfl)
  unfold AmazonQ.parseStream
  rw [h1, h2]
  exact ⟨rfl, rfl⟩

/-- C2 witness: a single 16-byte frame (total length 16, no headers, empty
payload) fed one byte at a time decodes to the same message list as the
whole buffer at once. -/
theorem claim_c2_witness :
    (∀ f ∈ [[0, 0, 0, 16, 0, 0, 0, 0, 0, 0, 0, 0, 0, 0, 0, 0]], AmazonQ.WFFrame f) ∧
    AmazonQ.parseStream (J := Unit) (fun _ => none) (fun _ => none)
        [[0], [0], [0], [16], [0], [0], [0], [0], [0], [0], [0], [0], [0], [0], [0], [0]]
      = AmazonQ.parseStream (J := Unit) (fun _ => none) (fun _ => none)
        [[[0, 0, 0, 16, 0, 0, 0, 0, 0, 0, 0, 0, 0, 0, 0, 0]].flatten] :=
  ⟨by decide,
   (claim_c2_parse_stream_chunk_invariant Unit (fun _ => none) (fun _ => none)
      [[0, 0, 0, 16, 0, 0, 0, 0, 0, 0, 0, 0, 0, 0, 0, 0]]
      [[0], [0], [0], [16], [0], [0], [0], [0], [0], [0], [0], [0], [0], [0], [0], [0]]
      (by decide) (by decide)).2⟩

namespace AmazonQ

/-! ### `src/api/server.py` — the non-streaming aggregation loop

`claude_messages` (lines 163-217) aggregates the SSE strings yielded by
`event_generator()` into a single JSON response.  Every yielded string is
produced by `_sse_format` and therefore reads `event: <name>\ndata:
<json>\n\n` (for `build_message_stop`, two such blocks in one string).  The
`json.dumps` output is abstracted as a rendering parameter `j` (plus
`jStop` for the fixed `message_stop` dump); the aggregation claims hold for
every rendering.  The body of the loop (lines 172-206) runs only when the
yielded string itself starts with `"data: "`; it is modeled as an arbitrary
state-update function `body` over an arbitrary accumulator type, and the
claims hold for every such body. -/

/-- The `event:` name `_sse_format` gives each yielded string. -/
def sseEventName : SSE → String
  | .messageStart _ _ _ => "message_start"
  | .ping => "ping"
  | .contentBlockStartText _ => "content_block_start"
  | .contentBlockStartToolUse _ _ _ => "content_block_start"
  | .contentBlockDeltaText _ _ => "content_block_delta"
  | .contentBlockDeltaInputJson _ _ => "content_block_delta"
  | .contentBlockStop _ => "content_block_stop"
  | .messageDeltaAndStop _ _ => "message_delta"

/-- The string yielded for one `SSE` value: `_sse_format(name, data)`, i.e.
`event: <name>\ndata: <dump>\n\n`, with `build_message_stop` yielding the
`message_delta` and `message_stop` blocks concatenated. -/
def renderSSE (j : SSE → String) (jStop : String) (e : SSE) : String :=
  "event: " ++
    (match e with
     | .messageDeltaAndStop o r =>
         "message_delta\ndata: " ++ j (.messageDeltaAndStop o r)
           ++ "\n\nevent: message_stop\ndata: " ++ jStop ++ "\n\n"
     | e' => sseEventName e' ++ "\ndata: " ++ j e' ++ "\n\n")

/-- The aggregation loop of the non-streaming path (server.py lines
170-206): a yielded string is processed only when it starts with
`"data: "`, in which case the loop body receives `line[6:].strip()`. -/
def aggregateLoop {σ : Type} (body : σ → String → σ) (st : σ) (lines : List String) : σ :=
  lines.foldl
    (fun acc line =>
      if pyStartsWith line "data: " then body acc (pyStrip (pyDrop line 6)) else acc)
    st

theorem pyStartsWith_event_head_ne_data (r : String) :
    pyStartsWith ("event: " ++ r) "data: " = false := by
  unfold pyStartsWith
  rw [String.data_append]
  rfl

theorem renderSSE_never_data (j : SSE → String) (jStop : String) (e : SSE) :
    pyStartsWith (renderSSE j jStop e) "data: " = false :=
  pyStartsWith_event_head_ne_data _

theorem aggregateLoop_no_match {σ : Type} (body : σ → String → σ) :
    ∀ (lines : List String) (st : σ),
    (∀ l ∈ lines, pyStartsWith l "data: " = false) → aggregateLoop body st lines = st := by
  intro lines
  induction lines with
  | nil => intro st _; rfl
  | cons l ls ih =>
    intro st h
    have hl : pyStartsWith l "data: " = false := h l (by simp)
    show aggregateLoop body _ (l :: ls) = st
    rw [aggregateLoop, List.foldl_cons, hl]
    simp only [Bool.false_eq_true, if_false]
    exact ih st (fun x hx => h x (by simp [hx]))

end AmazonQ

/-- C3: on the failing input — a tool-use block whose accumulated input
`"{bad"` is not valid JSON — the non-streaming aggregation leaves the
accumulated response exactly at its initial value (so `final_content` stays
empty and the raw text is kept nowhere): every string the handler yields
starts with `"event: "`, while the aggregation loop only processes strings
starting with `"data: "`.  Universally quantified over the accumulator
type, the initial accumulator, the loop body and the JSON rendering. -/
theorem claim_c3_aggregation_is_dead (σ : Type) (init : σ) (body : σ → String → σ)
    (j : AmazonQ.SSE → String) (jStop : String) :
    AmazonQ.aggregateLoop body init
        ((AmazonQ.runStream "claude-sonnet-4" 0
            [ { eventType := "toolUseEvent", toolUseId := some "t1", name := some "bash" },
              { eventType := "toolUseEvent", input := some (.str "\x7bbad") },
              { eventType := "toolUseEvent", stop := true } ]).map
          (AmazonQ.renderSSE j jStop)) = init := by
  apply AmazonQ.aggregateLoop_no_match
  intro l hl
  obtain ⟨e, _, rfl⟩ := List.mem_map.mp hl
  exact AmazonQ.renderSSE_never_data j jStop e

namespace AmazonQ

/-! ### `src/api/middleware.py` — bearer-secret parsing and the credential
cache

`_sha256` is abstracted as a parameter `hash`, `_handle_token_refresh` as a
parameter `refreshOracle` returning the new access token or `none` on any
failure, and `time.time()` as `now`.  `TOKEN_MAP` is an insertion-ordered
association list. -/

/-- One cached entry of `TOKEN_MAP`. -/
structure TokenEntry where
  accessToken : String
  refreshToken : String
  clientId : String
  clientSecret : String
  lastRefresh : Nat
deriving DecidableEq, Repr

/-- The global `TOKEN_MAP` dict. -/
abbrev TokenCache := List (String × TokenEntry)

/-- Python `key in dict` / `dict[key]` read. -/
def cacheLookup (m : TokenCache) (k : String) : Option TokenEntry :=
  (m.find? (fun q => q.1 = k)).map (fun q => q.2)

/-- Python `dict[key] = value`: overwrite in place if present, else append. -/
def cacheStore (m : TokenCache) (k : String) (v : TokenEntry) : TokenCache :=
  if m.any (fun q => q.1 = k) then m.map (fun q => if q.1 = k then (k, v) else q)
  else m ++ [(k, v)]

/-- `_parse_bearer_token` (lines 29-44): split on `":"`; the first two
fields are client id and secret, the remaining fields are re-joined with
`":"` as the refresh token. -/
def parseBearerToken (token : String) : String × String × String :=
  let tempArray := pySplitChar ':' token.data
  let clientId : String := if 0 < tempArray.length then ⟨tempArray.getD 0 []⟩ else ""
  let clientSecret : String := if 1 < tempArray.length then ⟨tempArray.getD 1 []⟩ else ""
  let refreshToken : String := if 2 < tempArray.length then ⟨pyJoin [':'] (tempArray.drop 2)⟩ else ""
  (clientId, clientSecret, refreshToken)

/-- The account dict returned by a successful `auth_middleware` call. -/
structure AuthAccount where
  accessToken : String
  clientId : String
  clientSecret : String
  refreshToken : String
deriving DecidableEq, Repr

/-- The observable outcome of one `auth_middleware` resolution: the result
(an `HTTPException` status or the account dict), the cache afterwards, and
how many token-refresh HTTP calls were made. -/
structure AuthOutcome where
  result : Except Nat AuthAccount
  cache : TokenCache
  refreshCalls : Nat
deriving Repr

/-- `auth_middleware` from the point where the caller secret is known
(lines 138-177): return the cached entry on a hash hit with no refresh
call; otherwise parse the secret, fail 401 with no refresh call when any of
the three parts is empty, else call the refresh endpoint once, fail 401 on
a falsy result, and otherwise store and return the new entry. -/
def authResolve (hash : String → String)
    (refreshOracle : String → String → String → Option String)
    (now : Nat) (cache : TokenCache) (token : String) : AuthOutcome :=
  let tokenHash := hash token
  match cacheLookup cache tokenHash with
  | some entry =>
    { result := .ok { accessToken := entry.accessToken, clientId := entry.clientId,
                      clientSecret := entry.clientSecret, refreshToken := entry.refreshToken },
      cache := cache, refreshCalls := 0 }
  | none =>
    let p := parseBearerToken token
    if p.1 = "" ∨ p.2.1 = "" ∨ p.2.2 = "" then
      { result := .error 401, cache := cache, refreshCalls := 0 }
    else
      match refreshOracle p.1 p.2.1 p.2.2 with
      | none => { result := .error 401, cache := cache, refreshCalls := 1 }
      | some accessToken =>
        if accessToken = "" then
          { result := .error 401, cache := cache, refreshCalls := 1 }
        else
          { result := .ok { accessToken := accessToken, clientId := p.1,
                            clientSecret := p.2.1, refreshToken := p.2.2 },
            cache := cacheStore cache tokenHash
              { accessToken := accessToken, refreshToken := p.2.2, clientId := p.1,
                clientSecret := p.2.1, lastRefresh := now },
            refreshCalls := 1 }

theorem pySplitChar_ne_nil (c : Char) (l : List Char) : pySplitChar c l ≠ [] := by
  cases l with
  | nil => simp [pySplitChar]
  | cons x xs =>
    rw [pySplitChar]
    by_cases h : x = c
    · simp [h]
    · simp only [h, if_false]
      cases pySplitChar c xs <;> simp

theorem pySplitChar_append (c : Char) (a r : List Char) (h : c ∉ a) :
    pySplitChar c (a ++ c :: r) = a :: pySplitChar c r := by
  induction a with
  | nil => simp [pySplitChar]
  | cons x xs ih =>
    have hx : ¬ x = c := fun hc => h (by simp [hc])
    have hxs : c ∉ xs := fun hc => h (by simp [hc])
    rw [List.cons_append, pySplitChar, if_neg hx, ih hxs]

theorem pyJoin_pySplitChar (c : Char) (l : List Char) :
    pyJoin [c] (pySplitChar c l) = l := by
  induction l with
  | nil => rfl
  | cons x xs ih =>
    rw [pySplitChar]
    by_cases h : x = c
    · subst h
      simp only [if_pos rfl]
      obtain ⟨h0, t0, ht⟩ : ∃ h0 t0, pySplitChar x xs = h0 :: t0 := by
        cases hc : pySplitChar x xs with
        | nil => exact absurd hc (pySplitChar_ne_nil x xs)
        | cons h0 t0 => exact ⟨h0, t0, rfl⟩
      rw [ht]
      rw [ht] at ih
      show [] ++ [x] ++ pyJoin [x] (h0 :: t0) = x :: xs
      simp [ih]
    · simp only [if_neg h]
      cases hc : pySplitChar c xs with
      | nil => exact absurd hc (pySplitChar_ne_nil c xs)
      | cons h0 t0 =>
        rw [hc] at ih
        cases t0 with
        | nil =>
          show x :: h0 = x :: xs
          rw [show pyJoin [c] [h0] = h0 from rfl] at ih
          rw [ih]
        | cons t1 ts =>
          show (x :: h0) ++ [c] ++ pyJoin [c] (t1 :: ts) = x :: xs
          rw [← ih]
          simp [pyJoin, List.append_assoc]

end AmazonQ

/-- C5: parsing a caller secret `clientId:clientSecret:refreshToken` whose
first two fields are colon-free recovers exactly those three components
(the refresh token may itself contain `":"`); and on a cache miss, a secret
that does not yield three non-empty parts fails with a 401 error, leaves
the cache untouched and makes no token-refresh call. -/
theorem claim_c5_secret_parse_and_miss_failure :
    (∀ cid cs rt : String, ':' ∉ cid.data → ':' ∉ cs.data →
      AmazonQ.parseBearerToken (cid ++ ":" ++ cs ++ ":" ++ rt) = (cid, cs, rt)) ∧
    (∀ (hash : String → String) (oracle : String → String → String → Option String)
       (now : Nat) (cache : AmazonQ.TokenCache) (token : String),
      AmazonQ.cacheLookup cache (hash token) = none →
      ((AmazonQ.parseBearerToken token).1 = "" ∨ (AmazonQ.parseBearerToken token).2.1 = "" ∨
        (AmazonQ.parseBearerToken token).2.2 = "") →
      AmazonQ.authResolve hash oracle now cache token
        = { result := .error 401, cache := cache, refreshCalls := 0 }) := by
  constructor
  · intro cid cs rt hcid hcs
    have hdata : (cid ++ ":" ++ cs ++ ":" ++ rt).data
        = cid.data ++ ':' :: (cs.data ++ ':' :: rt.data) := by
      simp [String.data_append]
    unfold AmazonQ.parseBearerToken
    rw [hdata, AmazonQ.pySplitChar_append ':' cid.data _ hcid,
      AmazonQ.pySplitChar_append ':' cs.data _ hcs]
    have hlen : 1 ≤ (AmazonQ.pySplitChar ':' rt.data).length := by
      cases hc : AmazonQ.pySplitChar ':' rt.data with
      | nil => exact absurd hc (AmazonQ.pySplitChar_ne_nil ':' rt.data)
      | cons h0 t0 => simp
    simp only [List.length_cons]
    rw [if_pos (by omega), if_pos (by omega), if_pos (by omega)]
    simp only [List.getD_cons_zero, List.getD_cons_succ, List.drop_succ_cons, List.drop_zero]
    rw [AmazonQ.pyJoin_pySplitChar]
  · intro hash oracle now cache token hmiss hbad
    simp only [AmazonQ.authResolve]
    rw [hmiss]
    simp only [if_pos hbad]

/-- C5 witness: a refresh token containing a colon survives the round trip,
and a colon-free secret fails authentication on a cache miss with no
refresh call. -/
theorem claim_c5_witness :
    AmazonQ.parseBearerToken ("id" ++ ":" ++ "sec" ++ ":" ++ "ref:tail") = ("id", "sec", "ref:tail") ∧
    AmazonQ.authResolve id (fun _ _ _ => some "tok") 0 [] "nocolons"
      = { result := .error 401, cache := [], refreshCalls := 0 } :=
  ⟨claim_c5_secret_parse_and_miss_failure.1 "id" "sec" "ref:tail" (by decide) (by decide),
   claim_c5_secret_parse_and_miss_failure.2 id (fun _ _ _ => some "tok") 0 [] "nocolons"
     rfl (by decide)⟩

/-- C9: with a warm cache (the secret's hash is present), resolving returns
the cached access token with no refresh call and an unchanged cache, and a
second resolution with no intervening `refreshAll` returns the same access
token, again with no refresh call. -/
theorem claim_c9_warm_cache_idempotent (hash : String → String)
    (oracle : String → String → String → Option String) (now now2 : Nat)
    (cache : AmazonQ.TokenCache) (token : String) (entry : AmazonQ.TokenEntry)
    (h : AmazonQ.cacheLookup cache (hash token) = some entry) :
    (AmazonQ.authResolve hash oracle now cache token).refreshCalls = 0 ∧
    (AmazonQ.authResolve hash oracle now cache token).cache = cache ∧
    (AmazonQ.authResolve hash oracle now cache token).result
      = .ok { accessToken := entry.accessToken, clientId := entry.clientId,
              clientSecret := entry.clientSecret, refreshToken := entry.refreshToken } ∧
    AmazonQ.authResolve hash oracle now2
        (AmazonQ.authResolve hash oracle now cache token).cache token
      = AmazonQ.authResolve hash oracle now cache token := by
  simp [AmazonQ.authResolve, h]

/-- C9 witness: a concrete one-entry cache resolved twice. -/
theorem claim_c9_witness :
    (AmazonQ.authResolve (fun _ => "h") (fun _ _ _ => none) 0
        [("h", { accessToken := "tok", refreshToken := "r", clientId := "c",
                 clientSecret := "s", lastRefresh := 0 })] "secret").refreshCalls = 0 ∧
    (AmazonQ.authResolve (fun _ => "h") (fun _ _ _ => none) 0
        [("h", { accessToken := "tok", refreshToken := "r", clientId := "c",
                 clientSecret := "s", lastRefresh := 0 })] "secret").result
      = .ok { accessToken := "tok", clientId := "c", clientSecret := "s", refreshToken := "r" } := by
  have h := claim_c9_warm_cache_idempotent (fun _ => "h") (fun _ _ _ => none) 0 0
    [("h", { accessToken := "tok", refreshToken := "r", clientId := "c",
             clientSecret := "s", lastRefresh := 0 })] "secret"
    { accessToken := "tok", refreshToken := "r", clientId := "c",
      clientSecret := "s", lastRefresh := 0 } rfl
  exact ⟨h.1, h.2.2.1⟩

namespace AmazonQ

/-! ### `src/core/converter.py` — request conversion

The Claude-side data model follows `src/core/types.py`: a message content is
either a raw string or a list of typed blocks; `none` models an absent dict
key.  `get_current_timestamp()` (wall clock) is abstracted as a parameter
`ts`.  Tool input schemas and tool-use inputs are opaque strings — no
settled claim inspects them. -/

/-- One item of a `tool_result` block's list-valued `content`. -/
inductive TRItem where
  | typedText (text : String)
  | keyedText (text : String)
  | otherDict
  | strItem (s : String)
deriving DecidableEq, Repr

/-- The `content` of a `tool_result` block (`block.get("content", [])`). -/
inductive TRContent where
  | str (s : String)
  | items (l : List TRItem)
deriving DecidableEq, Repr

/-- A Claude content block: `text`, `image`, `tool_use`, `tool_result`, or
anything else (unknown `type` or a non-dict element). -/
inductive CBlock where
  | text (text : String)
  | image (sourceType : Option String) (mediaType : Option String) (data : String)
  | toolUse (id : Option String) (name : Option String) (input : String)
  | toolResult (toolUseId : Option String) (content : TRContent) (status : Option String)
  | other
deriving DecidableEq, Repr

/-- `ClaudeMessage.content`: a raw string or a block list. -/
inductive ClaudeContent where
  | str (s : String)
  | blocks (bs : List CBlock)
deriving DecidableEq, Repr

/-- `ClaudeMessage` of `src/core/types.py`. -/
structure ClaudeMessage where
  role : String
  content : ClaudeContent
deriving DecidableEq, Repr

/-- `ClaudeTool` of `src/core/types.py` (the input schema is opaque). -/
structure ClaudeTool where
  name : String
  description : Option String := some ""
  inputSchema : String := ""
deriving DecidableEq, Repr

/-- `ClaudeRequest` of `src/core/types.py`. -/
structure ClaudeRequest where
  model : String
  messages : List ClaudeMessage
  maxTokens : Nat := 8192
  tools : Option (List ClaudeTool) := none
  stream : Bool := false
  system : Option ClaudeContent := none
deriving DecidableEq, Repr

/-- `map_model_name` (converter.py lines 16-29). -/
def mapModelName (claudeModel : String) : String :=
  let modelLower := pyLower claudeModel
  if pyStartsWith modelLower "claude-sonnet-4.5" || pyStartsWith modelLower "claude-sonnet-4-5"
  then "claude-sonnet-4.5"
  else "claude-sonnet-4"

/-- `extract_text_from_content` (lines 31-50): a raw string is returned
as-is; for a block list the texts of the `text` blocks are joined with
newlines. -/
def extractTextFromContent : ClaudeContent → String
  | .str s => s
  | .blocks bs =>
    String.intercalate "\n"
      (bs.filterMap (fun b => match b with | .text t => some t | _ => none))

/-- An upstream image dict `{format, source: {bytes}}`. -/
structure QImage where
  format : String
  bytes : String
deriving DecidableEq, Repr

/-- `extract_images_from_content` (lines 90-116): collect base64 image
blocks, mapping the media type's subtype to `format`; returns `None` when
there is none. -/
def extractImagesFromContent : ClaudeContent → Option (List QImage)
  | .str _ => none
  | .blocks bs =>
    let images := bs.filterMap (fun b =>
      match b with
      | .image sourceType mediaType d =>
        if sourceType = some "base64" then
          let media := mediaType.getD "image/png"
          let fmt : String :=
            if '/' ∈ media.data then ⟨(pySplitChar '/' media.data).getLastD []⟩ else "png"
          some { format := fmt, bytes := d }
        else none
      | _ => none)
    if images.isEmpty then none else some images

/-- One converted upstream tool result
`{toolUseId, content: [{text}], status}` (`content` listed by its texts). -/
structure AQToolResult where
  toolUseId : Option String
  content : List String
  status : String
deriving DecidableEq, Repr

/-- `process_tool_result_block` (lines 52-88): extract the texts of the
result content, substitute the cancellation placeholder when everything is
blank, and merge with an existing entry for the same tool-use id. -/
def processToolResultBlock (toolUseId : Option String) (rawC : TRContent)
    (status : Option String) (toolResults : List AQToolResult) : List AQToolResult :=
  let aqContent : List String :=
    match rawC with
    | .str s => [s]
    | .items l => l.filterMap (fun item =>
        match item with
        | .typedText t => some t
        | .keyedText t => some t
        | .otherDict => none
        | .strItem s => some s)
  let aqContent :=
    if aqContent.any (fun t => pyStrip t ≠ "") then aqContent
    else ["Tool use was cancelled by the user"]
  if toolResults.any (fun r => r.toolUseId = toolUseId) then
    toolResults.map (fun r =>
      if r.toolUseId = toolUseId then { r with content := r.content ++ aqContent } else r)
  else
    toolResults ++ [{ toolUseId := toolUseId, content := aqContent, status := status.getD "success" }]

/-- `convert_tool` (lines 118-138), restricted to the description field:
descriptions longer than 10240 characters are cut to 10100 plus the
truncation marker. -/
def convertToolDesc (t : ClaudeTool) : String :=
  let desc := t.description.getD ""
  if desc.length > 10240
  then pyTake desc 10100 ++ "\n\n...(Full description provided in TOOL DOCUMENTATION section)"
  else desc

/-- The `long_desc_tools` collection of `convert_claude_to_amazonq_request`
(lines 311-317): name and full text of every tool whose description was
truncated. -/
def longDescTools (req : ClaudeRequest) : List (String × String) :=
  match req.tools with
  | none => []
  | some ts => ts.filterMap (fun t =>
      match t.description with
      | some d => if d ≠ "" ∧ d.length > 10240 then some (t.name, d) else none
      | none => none)

/-- `req.messages[-1] if req.messages else None` (line 320). -/
def lastMsg (req : ClaudeRequest) : Option ClaudeMessage := req.messages.getLast?

/-- The `prompt_content` of the current turn (lines 321-344). -/
def currentPrompt (req : ClaudeRequest) : String :=
  match lastMsg req with
  | some m =>
    if m.role = "user" then
      match m.content with
      | .blocks bs =>
        String.intercalate "\n"
          (bs.filterMap (fun b => match b with | .text t => some t | _ => none))
      | .str s => extractTextFromContent (.str s)
    else ""
  | none => ""

/-- The `has_tool_result` flag of the current turn (lines 323, 337-338). -/
def currentHasToolResult (req : ClaudeRequest) : Bool :=
  match lastMsg req with
  | some m =>
    if m.role = "user" then
      match m.content with
      | .blocks bs => bs.any (fun b => match b with | .toolResult _ _ _ => true | _ => false)
      | .str _ => false
    else false
  | none => false

/-- Python truthiness of `req.system` (`None`, `""` and `[]` are falsy). -/
def systemTruthy (req : ClaudeRequest) : Bool :=
  match req.system with
  | none => false
  | some (.str s) => s ≠ ""
  | some (.blocks bs) => !bs.isEmpty

/-- The `sys_text` extraction (lines 384-392). -/
def sysTextOf (req : ClaudeRequest) : String :=
  match req.system with
  | none => ""
  | some (.str s) => s
  | some (.blocks bs) =>
    String.intercalate "\n"
      (bs.filterMap (fun b => match b with | .text t => some t | _ => none))

/-- The wrapped user message (lines 363-370). -/
def contextWrap (ts prompt : String) : String :=
  "--- CONTEXT ENTRY BEGIN ---\nCurrent time: " ++ ts
    ++ "\n--- CONTEXT ENTRY END ---\n\n--- USER MESSAGE BEGIN ---\n" ++ prompt
    ++ "\n--- USER MESSAGE END ---"

/-- The `TOOL DOCUMENTATION` block (lines 372-381). -/
def toolDocsBlock (lds : List (String × String)) : String :=
  "--- TOOL DOCUMENTATION BEGIN ---\n"
    ++ String.join (lds.map (fun q => "Tool: " ++ q.1 ++ "\nFull Description:\n" ++ q.2 ++ "\n"))
    ++ "--- TOOL DOCUMENTATION END ---\n\n"

/-- The `SYSTEM PROMPT` block (lines 394-400). -/
def sysBlock (sysText : String) : String :=
  "--- SYSTEM PROMPT BEGIN ---\n" ++ sysText ++ "\n--- SYSTEM PROMPT END ---\n\n"

/-- `formatted_content` after steps "4. 格式化内容" lines 359-381 (empty for a
tool-result-only turn, else the wrapped message; then the tool
documentation prefix when any description was truncated) and before the
system-prompt step. -/
def bodyBeforeSystem (req : ClaudeRequest) (ts : String) : String :=
  let base :=
    if currentHasToolResult req && (currentPrompt req = "") then ""
    else contextWrap ts (currentPrompt req)
  if longDescTools req ≠ [] then toolDocsBlock (longDescTools req) ++ base else base

/-- The final `formatted_content` (lines 359-400): the system prompt is
prepended only when `req.system` is truthy, the body so far is non-empty
and the extracted system text is non-empty. -/
def formattedContent (req : ClaudeRequest) (ts : String) : String :=
  let body := bodyBeforeSystem req ts
  if systemTruthy req && body ≠ "" then
    (if sysTextOf req ≠ "" then sysBlock (sysTextOf req) ++ body else body)
  else body

theorem systemTruthy_of_sysText_ne (req : ClaudeRequest) (h : sysTextOf req ≠ "") :
    systemTruthy req = true := by
  unfold sysTextOf at h
  unfold systemTruthy
  match hc : req.system with
  | none => rw [hc] at h; exact absurd rfl h
  | some (.str s) => rw [hc] at h; simpa using h
  | some (.blocks bs) =>
    rw [hc] at h
    cases bs with
    | nil => exact absurd rfl h
    | cons b bs' => simp

end AmazonQ

/-- C6 (counterexample): a request with the non-empty system prompt
`"be brief"` whose current turn carries only a tool result (no prompt text,
no tools) produces an empty body: contrary to the claim, the SYSTEM PROMPT
block is not prepended (the code only prepends it when the body so far is
non-empty). -/
theorem claim_c6_counterexample :
    AmazonQ.formattedContent
        { model := "m",
          messages := [{ role := "user",
                         content := .blocks [.toolResult (some "t1") (.str "ok") none] }],
          system := some (.str "be brief") } "T" = "" ∧
    AmazonQ.sysTextOf
        { model := "m",
          messages := [{ role := "user",
                         content := .blocks [.toolResult (some "t1") (.str "ok") none] }],
          system := some (.str "be brief") } = "be brief" ∧
    ¬ ∃ rest : String,
        AmazonQ.formattedContent
            { model := "m",
              messages := [{ role := "user",
                             content := .blocks [.toolResult (some "t1") (.str "ok") none] }],
              system := some (.str "be brief") } "T"
          = "--- SYSTEM PROMPT BEGIN ---\n" ++ rest := by
  refine ⟨by decide, by decide, ?_⟩
  rintro ⟨rest, hrest⟩
  have hempty : AmazonQ.formattedContent
      { model := "m",
        messages := [{ role := "user",
                       content := .blocks [.toolResult (some "t1") (.str "ok") none] }],
        system := some (.str "be brief") } "T" = "" := by decide
  rw [hempty] at hrest
  have hlen := congrArg String.length hrest
  rw [String.length_append] at hlen
  have h28 : ("--- SYSTEM PROMPT BEGIN ---\n" : String).length = 28 := rfl
  rw [h28] at hlen
  simp at hlen
  omega

/-- C6 (amended): whenever the extracted system text is non-empty *and* the
body built so far (wrapped message, possibly with the tool-documentation
prefix) is non-empty, the final body is exactly the SYSTEM PROMPT block
prepended outermost to that body — which itself is the TOOL DOCUMENTATION
block (when any tool description was truncated) prepended to the wrapped
user message; and when the current turn has only a tool result, no prompt
text and no truncated tool description, the body is empty (so no system
block is added). -/
theorem claim_c6_formatted_content_nesting (req : AmazonQ.ClaudeRequest) (ts : String)
    (hsys : AmazonQ.sysTextOf req ≠ "") :
    (AmazonQ.bodyBeforeSystem req ts ≠ "" →
      AmazonQ.formattedContent req ts
        = AmazonQ.sysBlock (AmazonQ.sysTextOf req) ++ AmazonQ.bodyBeforeSystem req ts) ∧
    AmazonQ.bodyBeforeSystem req ts
      = (if AmazonQ.longDescTools req ≠ []
         then AmazonQ.toolDocsBlock (AmazonQ.longDescTools req) else "")
        ++ (if AmazonQ.currentHasToolResult req && (AmazonQ.currentPrompt req = "") then ""
            else AmazonQ.contextWrap ts (AmazonQ.currentPrompt req)) ∧
    (AmazonQ.currentHasToolResult req = true → AmazonQ.currentPrompt req = "" →
      AmazonQ.longDescTools req = [] → AmazonQ.formattedContent req ts = "") := by
  refine ⟨?_, ?_, ?_⟩
  · intro hbody
    unfold AmazonQ.formattedContent
    rw [AmazonQ.systemTruthy_of_sysText_ne req hsys]
    simp [hbody, hsys]
  · unfold AmazonQ.bodyBeforeSystem
    by_cases hld : AmazonQ.longDescTools req = []
    · simp [hld]
    · simp [hld]
  · intro htr hpr hld
    unfold AmazonQ.formattedContent AmazonQ.bodyBeforeSystem
    simp [htr, hpr, hld]

/-- C6 witness: the amended statement evaluated at a concrete request with
a system prompt, a truncated tool description and a plain user message. -/
theorem claim_c6_witness :
    AmazonQ.formattedContent
        { model := "m",
          messages := [{ role := "user", content := .str "hi" }],
          system := some (.str "sys") } "T"
      = AmazonQ.sysBlock "sys"
        ++ AmazonQ.bodyBeforeSystem
             { model := "m",
               messages := [{ role := "user", content := .str "hi" }],
               system := some (.str "sys") } "T" :=
  (claim_c6_formatted_content_nesting
      { model := "m",
        messages := [{ role := "user", content := .str "hi" }],
        system := some (.str "sys") } "T" (by decide)).1 (by decide)

namespace AmazonQ

/-- The `userInputMessageContext` dict of a converted user history turn.
`process_history` always puts the constant `envState` inside, so the dict
is always truthy; only the optional `toolResults` key varies. -/
structure UserCtx where
  toolResults : Option (List AQToolResult) := none
deriving DecidableEq, Repr

/-- A converted user history turn (the `userInputMessage` dict built by
`process_history`, lines 240-246); `none` models an absent key. -/
structure UserHistMsg where
  content : String
  ctx : UserCtx := {}
  origin : String := "CLI"
  modelId : Option String := none
  images : Option (List QImage) := none
deriving DecidableEq, Repr

/-- The loop accumulator of `merge_user_messages` (lines 153-174). -/
structure MergeAcc where
  allContents : List String
  baseContext : Option UserCtx
  baseOrigin : Option String
  baseModel : Option String
  allImages : List (List QImage)
deriving DecidableEq, Repr

/-- One iteration of the `for msg in messages` loop of
`merge_user_messages`: remember the first context/origin and the first
non-`None` model id, append non-empty content, and collect each message's
(non-empty) image list. -/
def mergeStep (acc : MergeAcc) (msg : UserHistMsg) : MergeAcc where
  allContents := acc.allContents ++ (if msg.content ≠ "" then [msg.content] else [])
  baseContext := acc.baseContext <|> some msg.ctx
  baseOrigin := acc.baseOrigin <|> some msg.origin
  baseModel := acc.baseModel <|> msg.modelId
  allImages := acc.allImages ++
    (match msg.images with
     | some l => if l.isEmpty then [] else [l]
     | none => [])

/-- The merged entry returned by `merge_user_messages`. -/
structure MergedUserMsg where
  content : String
  ctx : UserCtx
  origin : String
  modelId : Option String
  images : Option (List QImage)
deriving DecidableEq, Repr

/-- `merge_user_messages` (lines 140-191): `{}` (here `none`) for an empty
run; otherwise the non-empty contents joined with a blank line, the first
turn's context and origin, the first non-`None` model id, and — when any
image was collected — the concatenation of the *last two collected image
lists* as the merged images. -/
def mergeUserMessages (msgs : List UserHistMsg) : Option MergedUserMsg :=
  if msgs.isEmpty then none
  else
    let acc := msgs.foldl mergeStep ⟨[], none, none, none, []⟩
    let result : MergedUserMsg :=
      { content := String.intercalate "\n\n" acc.allContents,
        ctx := acc.baseContext.getD {},
        origin :=
          match acc.baseOrigin with
          | some o => if o ≠ "" then o else "CLI"
          | none => "CLI",
        modelId := acc.baseModel,
        images := none }
    if acc.allImages.isEmpty then some result
    else
      let kept := (acc.allImages.drop (acc.allImages.length - 2)).flatten
      if kept.isEmpty then some result else some { result with images := some kept }

/-- The image list a message contributes to `all_images` (`msg.get("images")`
when truthy). -/
def contributedImages (msg : UserHistMsg) : Option (List QImage) :=
  match msg.images with
  | some l => if l.isEmpty then none else some l
  | none => none

theorem foldl_mergeStep_allContents (msgs : List UserHistMsg) :
    ∀ acc : MergeAcc,
    (msgs.foldl mergeStep acc).allContents
      = acc.allContents ++ (msgs.map UserHistMsg.content).filter (fun s => s ≠ "") := by
  induction msgs with
  | nil => intro acc; simp
  | cons m ms ih =>
    intro acc
    rw [List.foldl_cons, ih]
    show (acc.allContents ++ _) ++ _ = _
    rw [List.append_assoc, List.map_cons, List.filter_cons]
    by_cases h : m.content = "" <;> simp [h]

theorem foldl_mergeStep_allImages (msgs : List UserHistMsg) :
    ∀ acc : MergeAcc,
    (msgs.foldl mergeStep acc).allImages
      = acc.allImages ++ msgs.filterMap contributedImages := by
  induction msgs with
  | nil => intro acc; simp
  | cons m ms ih =>
    intro acc
    rw [List.foldl_cons, ih]
    show (acc.allImages ++ _) ++ _ = _
    rw [List.append_assoc, List.filterMap_cons]
    unfold contributedImages
    match hm : m.images with
    | none => simp
    | some l =>
      by_cases h : l.isEmpty <;> simp [h]

theorem contributedImages_ne_nil (msg : UserHistMsg) (l : List QImage)
    (h : contributedImages msg = some l) : l ≠ [] := by
  unfold contributedImages at h
  match hm : msg.images with
  | none => rw [hm] at h; exact absurd h (by simp)
  | some l' =>
    rw [hm] at h
    by_cases he : l'.isEmpty
    · simp [he] at h
    · simp [he] at h
      rw [← h]
      exact fun hn => he (by simp [hn])

end AmazonQ

/-- C7 (counterexample): a run of four user turns with texts
`"a", "", "b", "c"` and images on the first two turns only.  The claim's
reading — text is all four texts joined with a blank line, images come from
the last two *original* turns (which carry none) — is false: the code skips
the empty text (producing `"a\n\nb\n\nc"`, not `"a\n\n\n\nb\n\nc"`) and keeps
the images of the last two *image-carrying* turns (`i1`, `i2`). -/
theorem claim_c7_counterexample :
    (AmazonQ.mergeUserMessages
        [ { content := "a", images := some [{ format := "png", bytes := "i1" }] },
          { content := "", images := some [{ format := "png", bytes := "i2" }] },
          { content := "b" },
          { content := "c" } ]).map (fun m => (m.content, m.images))
      = some ("a\n\nb\n\nc",
              some [{ format := "png", bytes := "i1" }, { format := "png", bytes := "i2" }]) ∧
    ¬ (AmazonQ.mergeUserMessages
        [ { content := "a", images := some [{ format := "png", bytes := "i1" }] },
          { content := "", images := some [{ format := "png", bytes := "i2" }] },
          { content := "b" },
          { content := "c" } ]).map (fun m => (m.content, m.images))
      = some (String.intercalate "\n\n" ["a", "", "b", "c"], (none : Option (List AmazonQ.QImage))) := by
  constructor
  · decide
  · decide

/-- C7 (amended): a non-empty run of consecutive user turns is collapsed
into a single entry whose text is the *non-empty* texts of the turns joined
with a blank line, and whose images are exactly the concatenation of the
last two image lists among the *image-carrying* turns of the run (`none`
when no turn carries images); images of earlier image-carrying turns are
dropped. -/
theorem claim_c7_merge_run (msgs : List AmazonQ.UserHistMsg) (h : msgs ≠ []) :
    ∃ m, AmazonQ.mergeUserMessages msgs = some m ∧
      m.content
        = String.intercalate "\n\n" ((msgs.map AmazonQ.UserHistMsg.content).filter (fun s => s ≠ "")) ∧
      m.images
        = (if msgs.filterMap AmazonQ.contributedImages = [] then none
           else some (((msgs.filterMap AmazonQ.contributedImages).drop
                        ((msgs.filterMap AmazonQ.contributedImages).length - 2)).flatten)) := by
  have hc := AmazonQ.foldl_mergeStep_allContents msgs ⟨[], none, none, none, []⟩
  have hi := AmazonQ.foldl_mergeStep_allImages msgs ⟨[], none, none, none, []⟩
  simp only [List.nil_append] at hc hi
  simp only [AmazonQ.mergeUserMessages]
  rw [if_neg (by simpa using h), hc, hi]
  by_cases himg : msgs.filterMap AmazonQ.contributedImages = []
  · rw [himg]
    simp only [List.isEmpty_nil, if_true]
    exact ⟨_, rfl, rfl, rfl⟩
  · have hne : (msgs.filterMap AmazonQ.contributedImages).isEmpty = false := by
      cases hl : msgs.filterMap AmazonQ.contributedImages with
      | nil => exact absurd hl himg
      | cons a b => rfl
    rw [hne]
    simp only [Bool.false_eq_true, if_false]
    have hkept : ((msgs.filterMap AmazonQ.contributedImages).drop
        ((msgs.filterMap AmazonQ.contributedImages).length - 2)).flatten.isEmpty = false := by
      set ls := msgs.filterMap AmazonQ.contributedImages with hls
      obtain ⟨g, gs, hgs⟩ : ∃ g gs, ls.drop (ls.length - 2) = g :: gs := by
        have h1 : 1 ≤ ls.length := by
          cases hl : ls with
          | nil => exact absurd hl himg
          | cons a b => simp
        cases hd : ls.drop (ls.length - 2) with
        | nil =>
          exfalso
          have hlen : (ls.drop (ls.length - 2)).length = ls.length - (ls.length - 2) := by simp
          rw [hd] at hlen
          simp at hlen
          omega
        | cons g gs => exact ⟨g, gs, rfl⟩
      have hgmem : g ∈ ls := List.mem_of_mem_drop (by rw [hgs]; simp)
      obtain ⟨msg, _, hcontr⟩ := List.mem_filterMap.mp hgmem
      have hgne : g ≠ [] := AmazonQ.contributedImages_ne_nil msg g hcontr
      rw [hgs]
      cases g with
      | nil => exact absurd rfl hgne
      | cons a as => rfl
    rw [hkept]
    simp only [Bool.false_eq_true, if_false]
    exact ⟨_, rfl, rfl, by rw [if_neg himg]⟩

/-- C7 witness: the amended characterization evaluated on a concrete
three-turn run. -/
theorem claim_c7_witness :
    ∃ m, AmazonQ.mergeUserMessages
        [ { content := "a", images := some [{ format := "png", bytes := "i1" }] },
          { content := "" },
          { content := "b" } ] = some m ∧
      m.content = String.intercalate "\n\n"
        (([ { content := "a", images := some [{ format := "png", bytes := "i1" }] },
            { content := "" },
            ({ content := "b" } : AmazonQ.UserHistMsg) ].map AmazonQ.UserHistMsg.content).filter
          (fun s => s ≠ "")) ∧
      m.images
        = (if [ { content := "a", images := some [{ format := "png", bytes := "i1" }] },
                { content := "" },
                ({ content := "b" } : AmazonQ.UserHistMsg) ].filterMap AmazonQ.contributedImages = []
           then none
           else some ((([ { content := "a", images := some [{ format := "png", bytes := "i1" }] },
                          { content := "" },
                          ({ content := "b" } : AmazonQ.UserHistMsg) ].filterMap AmazonQ.contributedImages).drop
                        (([ { content := "a", images := some [{ format := "png", bytes := "i1" }] },
                            { content := "" },
                            ({ content := "b" } : AmazonQ.UserHistMsg) ].filterMap AmazonQ.contributedImages).length - 2)).flatten)) :=
  claim_c7_merge_run
    [ { content := "a", images := some [{ format := "png", bytes := "i1" }] },
      { content := "" },
      { content := "b" } ] (by decide)

/-- C8: `map_model_name` returns the "4.5" upstream id exactly when the
lowercased input starts with `claude-sonnet-4.5` or `claude-sonnet-4-5`,
and the base id for every other string; in particular `claude-sonnet-4.5`
and `claude-sonnet-4-5` map to the "4.5" id and `claude-sonnet-4` maps to
the base id (case-insensitively). -/
theorem claim_c8_model_mapping :
    (∀ m : String, AmazonQ.mapModelName m = "claude-sonnet-4.5" ↔
      (AmazonQ.pyStartsWith (AmazonQ.pyLower m) "claude-sonnet-4.5" = true ∨
        AmazonQ.pyStartsWith (AmazonQ.pyLower m) "claude-sonnet-4-5" = true)) ∧
    (∀ m : String, AmazonQ.mapModelName m ≠ "claude-sonnet-4.5" →
      AmazonQ.mapModelName m = "claude-sonnet-4") ∧
    AmazonQ.mapModelName "claude-sonnet-4.5" = "claude-sonnet-4.5" ∧
    AmazonQ.mapModelName "claude-sonnet-4-5" = "claude-sonnet-4.5" ∧
    AmazonQ.mapModelName "claude-sonnet-4" = "claude-sonnet-4" ∧
    AmazonQ.mapModelName "Claude-Sonnet-4-5-20250929" = "claude-sonnet-4.5" := by
  refine ⟨?_, ?_, by decide, by decide, by decide, by decide⟩
  · intro m
    unfold AmazonQ.mapModelName
    by_cases hc : (AmazonQ.pyStartsWith (AmazonQ.pyLower m) "claude-sonnet-4.5"
        || AmazonQ.pyStartsWith (AmazonQ.pyLower m) "claude-sonnet-4-5") = true
    · rw [if_pos hc]
      simp only [Bool.or_eq_true] at hc
      simp [hc]
    · rw [if_neg hc]
      simp only [Bool.or_eq_true] at hc
      constructor
      · intro hbad
        exact absurd hbad (by decide)
      · intro hor
        exact absurd hor hc
  · intro m hne
    unfold AmazonQ.mapModelName at hne ⊢
    by_cases hc : (AmazonQ.pyStartsWith (AmazonQ.pyLower m) "claude-sonnet-4.5"
        || AmazonQ.pyStartsWith (AmazonQ.pyLower m) "claude-sonnet-4-5") = true
    · rw [if_pos hc] at hne
      exact absurd rfl hne
    · rw [if_neg hc]

/-- C8 witness: the "every other string" clause evaluated at `"gpt-4"`. -/
theorem claim_c8_witness :
    AmazonQ.mapModelName "gpt-4" = "claude-sonnet-4" :=
  claim_c8_model_mapping.2.1 "gpt-4" (by decide)
